import Mathlib

/-!
Verification of the NVPTX global constructor/destructor lowering pass
(`llvm/lib/Target/NVPTX/NVPTXCtorDtorLowering.cpp`).

The development shallowly embeds the pass:
* the symbol namer (`entryGlobalName`, `sectionFor`) and its decimal
  priority rendering (`decDigits`, mirroring `std::to_string` on the
  `uint64_t` that receives the sign-extended priority);
* the digest (`getHash`) modelled from the spec, since `llvm::MD5` and
  `llvm::utohexstr` are external library code;
* the per-module driver (`createInitOrFiniGlobals`,
  `createInitOrFiniKernelFunction`, `createInitOrFiniCalls`,
  `createInitOrFiniKernel`, `lowerCtorsAndDtors`) over an explicit
  module state;
* the execution semantics of the loop synthesized by
  `createInitOrFiniCalls` (`ctorCallSlots`, `dtorCallSlots`), with
  64-bit pointer arithmetic made explicit (`% 18446744073709551616`,
  i.e. modulo 2^64).
-/

namespace NVPTXCtorDtor

/-! ## Character and digit utilities -/

/-- The character substitution applied by
`llvm::transform(NameStr, ..., [](char c) { return c == '.' ? '_' : c; })`:
PTX does not support exported names with '.' in them. -/
def dotToUnderscore (c : Char) : Char := if c = '.' then '_' else c

/-- Apply `dotToUnderscore` to every character of a string. -/
def mapDots (s : String) : String := ⟨s.data.map dotToUnderscore⟩

/-- Numeric value of a decimal digit character ('0'..'9'). -/
def digitVal (c : Char) : Nat := c.toNat - 48

/-- Numeric value of a lowercase hexadecimal digit character. -/
def hexDigitVal (c : Char) : Nat := if c.toNat ≤ 57 then c.toNat - 48 else c.toNat - 87

/-- Fuel-driven digit accumulation for decimal rendering, mirroring
`std::to_string` on an unsigned 64-bit value.  The fuel argument only
bounds the recursion; `fuel = n + 1` always suffices. -/
def decDigitsCore : Nat → Nat → List Char → List Char
  | 0, _, ds => ds
  | fuel + 1, n, ds =>
    if n < 10 then Nat.digitChar n :: ds
    else decDigitsCore fuel (n / 10) (Nat.digitChar (n % 10) :: ds)

/-- Decimal digit list of a natural number (most significant first). -/
def decDigits (n : Nat) : List Char := decDigitsCore (n + 1) n []

/-- Decimal rendering of a natural number as a string. -/
def decimalStr (n : Nat) : String := ⟨decDigits n⟩

/-- Decode a decimal digit list back to its value. -/
def decValue : List Char → Nat
  | [] => 0
  | c :: cs => digitVal c * 10 ^ cs.length + decValue cs

/-- Fixed-width hexadecimal digit list (most significant first):
`hexDigitsFixed k n` has exactly `k` digits and renders `n mod 16 ^ k`. -/
def hexDigitsFixed : Nat → Nat → List Char
  | 0, _ => []
  | k + 1, n => hexDigitsFixed k (n / 16) ++ [Nat.digitChar (n % 16)]

/-- Decode a hexadecimal digit list back to its value. -/
def hexValue : List Char → Nat
  | [] => 0
  | c :: cs => hexDigitVal c * 16 ^ cs.length + hexValue cs

/-! ## The symbol namer

`createInitOrFiniGlobals` extracts
`uint64_t Priority = cast<ConstantInt>(CS->getOperand(0))->getSExtValue();`
so the signed 64-bit priority is reinterpreted as an unsigned 64-bit
value before being rendered in decimal. -/

/-- The `uint64_t` value receiving the sign-extended 64-bit priority. -/
def priorityU64 (p : Int) : Nat := (p.emod 18446744073709551616).toNat

/-- The entry-global name built by `createInitOrFiniGlobals`:
kind marker, target-function name, identifier and decimal priority,
joined with '_', then every '.' replaced by '_'. -/
def entryGlobalName (isCtor : Bool) (fnName globalID : String) (prio : Nat) : String :=
  mapDots ((if isCtor then "__init_array_object_" else "__fini_array_object_")
    ++ fnName ++ "_" ++ globalID ++ "_" ++ decimalStr prio)

/-- The section hint attached to an entry-global:
`".init_array" + "." + std::to_string(Priority)` (resp. `.fini_array`). -/
def sectionFor (isCtor : Bool) (prio : Nat) : String :=
  (if isCtor then ".init_array" else ".fini_array") ++ ("." ++ decimalStr prio)

/-- Modelled from the spec: the digest function `getHash` uses `llvm::MD5`
and `llvm::utohexstr` (llvm/Support), which are not part of the source
bundle; the spec treats the hash as a black-box 128-bit
cryptographic-strength hash and the output as a fixed-length lowercase
hexadecimal rendering of its low 64 bits.  The 128-bit hash of each byte
string is supplied as the function parameter `md5`. -/
def getHash (md5 : String → Nat) (s : String) : String :=
  ⟨hexDigitsFixed 16 (md5 s % 18446744073709551616)⟩

/-! ## Generic list and digit lemmas -/

/-- Splitting a list at its first occurrence of a separator is unique. -/
lemma sep_split_first (s : Char) :
    ∀ (p1 p2 q1 q2 : List Char), s ∉ p1 → s ∉ p2 →
      p1 ++ s :: q1 = p2 ++ s :: q2 → p1 = p2 ∧ q1 = q2 := by
  intro p1
  induction p1 with
  | nil =>
    intro p2 q1 q2 h1 h2 heq
    cases p2 with
    | nil => simpa using heq
    | cons c cs =>
      simp only [List.nil_append, List.cons_append, List.cons.injEq] at heq
      exact absurd (heq.1 ▸ List.mem_cons_self c cs) (heq.1 ▸ h2)
  | cons c cs ih =>
    intro p2 q1 q2 h1 h2 heq
    cases p2 with
    | nil =>
      simp only [List.cons_append, List.nil_append, List.cons.injEq] at heq
      exact absurd (heq.1 ▸ List.mem_cons_self c cs) (fun hm => h1 (heq.1 ▸ List.mem_cons_self c cs))
    | cons d ds =>
      simp only [List.cons_append, List.cons.injEq] at heq
      obtain ⟨hcd, htail⟩ := heq
      have hs1 : s ∉ cs := fun hm => h1 (List.mem_cons_of_mem c hm)
      have hs2 : s ∉ ds := fun hm => h2 (List.mem_cons_of_mem d hm)
      obtain ⟨ha, hb⟩ := ih ds q1 q2 hs1 hs2 htail
      exact ⟨by rw [hcd, ha], hb⟩

/-- Splitting a list at its last occurrence of a separator is unique. -/
lemma sep_split_last (s : Char) (a1 a2 t1 t2 : List Char)
    (h1 : s ∉ t1) (h2 : s ∉ t2)
    (heq : a1 ++ s :: t1 = a2 ++ s :: t2) : a1 = a2 ∧ t1 = t2 := by
  have hrev : t1.reverse ++ s :: a1.reverse = t2.reverse ++ s :: a2.reverse := by
    have h := congrArg List.reverse heq
    simp only [List.reverse_append, List.reverse_cons, List.append_assoc,
      List.singleton_append] at h
    exact h
  have h3 : s ∉ t1.reverse := by simpa using h1
  have h4 : s ∉ t2.reverse := by simpa using h2
  obtain ⟨ht, ha⟩ := sep_split_first s _ _ _ _ h3 h4 hrev
  exact ⟨List.reverse_injective ha, List.reverse_injective ht⟩

/-- Every character produced by the decimal digit accumulator satisfies any
property enjoyed by the ten digit characters and by the seed characters. -/
lemma decDigitsCore_chars (P : Char → Prop) (hd : ∀ d, d < 10 → P (Nat.digitChar d)) :
    ∀ (fuel n : Nat) (ds : List Char), (∀ c ∈ ds, P c) →
      ∀ c ∈ decDigitsCore fuel n ds, P c := by
  intro fuel
  induction fuel with
  | zero => intro n ds hds c hc; exact hds c hc
  | succ g ih =>
    intro n ds hds c hc
    by_cases h : n < 10
    · simp only [decDigitsCore, h, if_true] at hc
      rcases List.mem_cons.mp hc with h1 | h1
      · exact h1 ▸ hd n h
      · exact hds c h1
    · simp only [decDigitsCore, h, if_false] at hc
      refine ih (n / 10) (Nat.digitChar (n % 10) :: ds) ?_ c hc
      intro e he
      rcases List.mem_cons.mp he with h1 | h1
      · exact h1 ▸ hd (n % 10) (Nat.mod_lt n (by omega))
      · exact hds e h1

/-- The accumulator of `decDigitsCore` is a plain suffix. -/
lemma decDigitsCore_acc : ∀ (fuel n : Nat) (ds : List Char),
    decDigitsCore fuel n ds = decDigitsCore fuel n [] ++ ds := by
  intro fuel
  induction fuel with
  | zero => intro n ds; simp [decDigitsCore]
  | succ g ih =>
    intro n ds
    by_cases h : n < 10
    · simp [decDigitsCore, h]
    · simp only [decDigitsCore, h, if_false]
      rw [ih (n / 10) (Nat.digitChar (n % 10) :: ds), ih (n / 10) [Nat.digitChar (n % 10)]]
      simp

/-- Peeling the least significant decimal digit off a digit list. -/
lemma decValue_append_singleton (xs : List Char) (c : Char) :
    decValue (xs ++ [c]) = 10 * decValue xs + digitVal c := by
  induction xs with
  | nil => simp [decValue]
  | cons x xs ih =>
    rw [List.cons_append]
    show digitVal x * 10 ^ (xs ++ [c]).length + decValue (xs ++ [c]) = _
    rw [ih, List.length_append]
    simp only [List.length_cons, List.length_nil, decValue]
    ring

/-- Decoding a digit character recovers its value. -/
lemma digitVal_digitChar : ∀ d, d < 10 → digitVal (Nat.digitChar d) = d := by decide

/-- Decoding the decimal rendering recovers the number. -/
lemma decValue_decDigitsCore : ∀ (fuel n : Nat), n < fuel →
    decValue (decDigitsCore fuel n []) = n := by
  intro fuel
  induction fuel with
  | zero => omega
  | succ g ih =>
    intro n hn
    by_cases h : n < 10
    · simp [decDigitsCore, h, decValue, digitVal_digitChar n h]
    · have hstep : decDigitsCore (g + 1) n [] =
          decDigitsCore g (n / 10) [] ++ [Nat.digitChar (n % 10)] := by
        simp only [decDigitsCore, h, if_false]
        exact decDigitsCore_acc g (n / 10) [Nat.digitChar (n % 10)]
      rw [hstep, decValue_append_singleton, ih (n / 10) (by omega),
        digitVal_digitChar (n % 10) (Nat.mod_lt n (by omega))]
      omega

/-- Decimal rendering is injective. -/
lemma decDigits_inj (a b : Nat) (h : decDigits a = decDigits b) : a = b := by
  have ha := decValue_decDigitsCore (a + 1) a (by omega)
  have hb := decValue_decDigitsCore (b + 1) b (by omega)
  rw [← ha, ← hb]
  unfold decDigits at h
  rw [h]

/-- No decimal digit is a dot, an underscore or a minus sign. -/
lemma decDigits_no_special : ∀ n, ∀ c ∈ decDigits n,
    c ≠ '.' ∧ c ≠ '_' ∧ c ≠ '-' := by
  intro n
  exact decDigitsCore_chars _ (by decide) (n + 1) n [] (by simp)

/-- Dot substitution fixes decimal digit lists. -/
lemma map_dots_decDigits (n : Nat) : (decDigits n).map dotToUnderscore = decDigits n := by
  have h : ∀ c ∈ decDigits n, dotToUnderscore c = c := by
    intro c hc
    have := (decDigits_no_special n c hc).1
    simp [dotToUnderscore, this]
  conv_rhs => rw [← List.map_id (decDigits n)]
  exact List.map_congr_left h

/-- The `Int.emod` used by `priorityU64`, characterised on the `int64_t`
range: nonnegative priorities are unchanged, negative ones are shifted up
by 2^64 (two's-complement reinterpretation). -/
lemma emod64_char (r : Int) (h1 : -9223372036854775808 ≤ r) (h2 : r < 9223372036854775808) :
    r.emod 18446744073709551616 = if 0 ≤ r then r else r + 18446744073709551616 := by
  by_cases h : 0 ≤ r
  · simp only [h, if_true]
    exact Int.emod_eq_of_lt h (by omega)
  · simp only [h, if_false]
    have e : (r + 18446744073709551616 * 1) % 18446744073709551616 = r % 18446744073709551616 :=
      Int.add_mul_emod_self_left r 18446744073709551616 1
    simp only [mul_one] at e
    show r % 18446744073709551616 = _
    rw [← e]
    exact Int.emod_eq_of_lt (by omega) (by omega)

/-- The unsigned reinterpretation of an `int64_t` priority is injective. -/
lemma priorityU64_inj (p q : Int)
    (h1 : -9223372036854775808 ≤ p) (h2 : p < 9223372036854775808)
    (h3 : -9223372036854775808 ≤ q) (h4 : q < 9223372036854775808)
    (h : priorityU64 p = priorityU64 q) : p = q := by
  unfold priorityU64 at h
  rw [emod64_char p h1 h2, emod64_char q h3 h4] at h
  by_cases hp : 0 ≤ p <;> by_cases hq : 0 ≤ q <;> simp [hp, hq] at h <;> omega

/-- Decomposition of an entry-global name into its dot-substituted parts:
the kind marker (which contains no dot), the substituted function name,
the substituted identifier, and the untouched decimal priority. -/
lemma entryGlobalName_data (isCtor : Bool) (fn gid : String) (p : Nat) :
    (entryGlobalName isCtor fn gid p).data =
      ((if isCtor then "__init_array_object_" else "__fini_array_object_").data
        ++ fn.data.map dotToUnderscore
        ++ '_' :: gid.data.map dotToUnderscore)
        ++ '_' :: decDigits p := by
  show ((if isCtor then "__init_array_object_" else "__fini_array_object_")
    ++ fn ++ "_" ++ gid ++ "_" ++ decimalStr p).data.map dotToUnderscore = _
  have hd : ∀ (a b : String), (a ++ b).data = a.data ++ b.data := fun _ _ => rfl
  cases isCtor <;>
    simp [hd, List.map_append, map_dots_decDigits, dotToUnderscore, decimalStr,
      List.append_assoc]

/-- Equal entry-global names (with a shared identifier) force equal
dot-substituted function names and equal rendered priorities. -/
lemma names_eq_then (isCtor : Bool) (fn1 fn2 gid : String) (u1 u2 : Nat)
    (heq : entryGlobalName isCtor fn1 gid u1 = entryGlobalName isCtor fn2 gid u2) :
    mapDots fn1 = mapDots fn2 ∧ u1 = u2 := by
  have hdata := congrArg String.data heq
  rw [entryGlobalName_data, entryGlobalName_data] at hdata
  have hns1 : '_' ∉ decDigits u1 := fun hm => ((decDigits_no_special u1 '_' hm).2.1) rfl
  have hns2 : '_' ∉ decDigits u2 := fun hm => ((decDigits_no_special u2 '_' hm).2.1) rfl
  obtain ⟨hA, hD⟩ := sep_split_last '_' _ _ _ _ hns1 hns2 hdata
  refine ⟨?_, decDigits_inj u1 u2 hD⟩
  rw [List.append_assoc, List.append_assoc] at hA
  have hA2 := List.append_cancel_left hA
  have hf := List.append_cancel_right hA2
  exact congrArg String.mk hf

/-! ## Hexadecimal digest lemmas (for the spec-modelled `getHash`) -/

/-- The fixed-width hexadecimal rendering has exactly the requested width. -/
lemma hexDigitsFixed_length : ∀ (k n : Nat), (hexDigitsFixed k n).length = k := by
  intro k
  induction k with
  | zero => intro n; rfl
  | succ j ih => intro n; simp [hexDigitsFixed, ih]

/-- Peeling the least significant hexadecimal digit off a digit list. -/
lemma hexValue_append_singleton (xs : List Char) (c : Char) :
    hexValue (xs ++ [c]) = 16 * hexValue xs + hexDigitVal c := by
  induction xs with
  | nil => simp [hexValue]
  | cons x xs ih =>
    rw [List.cons_append]
    show hexDigitVal x * 16 ^ (xs ++ [c]).length + hexValue (xs ++ [c]) = _
    rw [ih, List.length_append]
    simp only [List.length_cons, List.length_nil, hexValue]
    ring

/-- Decoding a hexadecimal digit character recovers its value. -/
lemma hexDigitVal_digitChar : ∀ d, d < 16 → hexDigitVal (Nat.digitChar d) = d := by decide

/-- Decoding the fixed-width hexadecimal rendering recovers the value
modulo `16 ^ width`. -/
lemma hexValue_hexDigitsFixed : ∀ (k n : Nat),
    hexValue (hexDigitsFixed k n) = n % 16 ^ k := by
  intro k
  induction k with
  | zero => intro n; simp [hexDigitsFixed, hexValue, Nat.mod_one]
  | succ j ih =>
    intro n
    rw [hexDigitsFixed, hexValue_append_singleton, ih (n / 16),
      hexDigitVal_digitChar (n % 16) (Nat.mod_lt n (by omega))]
    rw [pow_succ, Nat.mul_comm (16 ^ j) 16, Nat.mod_mul]
    ring

/-- Every character of the fixed-width rendering is a lowercase
hexadecimal digit. -/
lemma hexDigitsFixed_chars : ∀ (k n : Nat),
    ∀ c ∈ hexDigitsFixed k n, c ∈ ("0123456789abcdef").data := by
  intro k
  induction k with
  | zero => intro n c hc; simp [hexDigitsFixed] at hc
  | succ j ih =>
    intro n c hc
    simp only [hexDigitsFixed, List.mem_append, List.mem_singleton] at hc
    rcases hc with h | h
    · exact ih (n / 16) c h
    · subst h
      have h2 : n % 16 < 16 := Nat.mod_lt n (by omega)
      have hall : ∀ d, d < 16 → Nat.digitChar d ∈ ("0123456789abcdef").data := by decide
      exact hall (n % 16) h2

/-! ## The module state and the driver

The slice of LLVM module state that the pass reads or writes, and the
driver functions `createInitOrFiniGlobals`, `createInitOrFiniKernelFunction`,
`createInitOrFiniCalls` (its module-level effect: the lazily created
boundary symbols), `createInitOrFiniKernel` and `lowerCtorsAndDtors`,
mirroring the control flow of the C++ source. -/

/-- One record of `llvm.global_ctors` / `llvm.global_dtors`:
`{i64 priority, ptr fn, ptr data}`; the data operand is never read. -/
structure CtorDtorRecord where
  priority : Int
  fn : String
deriving DecidableEq, Repr

/-- Shape of the metadata-array global's constant value, as far as the
pass inspects it via `dyn_cast<ConstantArray>`. -/
inductive ArrayInit where
  | constantArray (records : List CtorDtorRecord)
  | nonArray
deriving DecidableEq, Repr

/-- An entry-global created by the materializer: its (namer-produced)
name, the function constant it holds, and its section hint. -/
structure EntryGlobal where
  name : String
  target : String
  sectionStr : String
deriving DecidableEq, Repr

/-- The slice of LLVM module state the pass touches.  The two metadata
globals are `Option (Option ArrayInit)`: the outer `none` means the named
global is absent (`M.getGlobalVariable` fails), the inner `none` means it
has no constant value (`!GV->hasInitializer()`). -/
structure IRModule where
  sourceFileName : String
  globalCtors : Option (Option ArrayInit)
  globalDtors : Option (Option ArrayInit)
  functions : List String
  entryGlobals : List EntryGlobal
  usedList : List String
  boundaryGlobals : List String
deriving DecidableEq, Repr

/-- The two `cl::opt` configuration values:
`nvptx-lower-global-ctor-dtor-id` (empty means unset) and
`nvptx-emit-init-fini-kernel` (default `true`). -/
structure Config where
  globalStr : String
  createKernels : Bool
deriving DecidableEq, Repr

/-- `!GlobalStr.empty() ? GlobalStr : getHash(M.getSourceFileName())`. -/
def globalIdFor (md5 : String → Nat) (cfg : Config) (srcName : String) : String :=
  if cfg.globalStr ≠ "" then cfg.globalStr else getHash md5 srcName

/-- The entry-global built for one metadata record. -/
def mkEntryGlobal (isCtor : Bool) (gid : String) (r : CtorDtorRecord) : EntryGlobal :=
  { name := entryGlobalName isCtor r.fn gid (priorityU64 r.priority)
    target := r.fn
    sectionStr := sectionFor isCtor (priorityU64 r.priority) }

/-- The per-record loop of `createInitOrFiniGlobals`: for each record in
order, create the entry-global and append it to `llvm.used`. -/
def createInitOrFiniGlobalsLoop (md5 : String → Nat) (cfg : Config) (isCtor : Bool) :
    IRModule → List CtorDtorRecord → IRModule
  | m, [] => m
  | m, r :: rs =>
    let gid := globalIdFor md5 cfg m.sourceFileName
    let g := mkEntryGlobal isCtor gid r
    createInitOrFiniGlobalsLoop md5 cfg isCtor
      { m with entryGlobals := m.entryGlobals ++ [g], usedList := m.usedList ++ [g.name] } rs

/-- `createInitOrFiniGlobals`: fail (returning `false`, no change) when the
constant value is not a `ConstantArray` or has zero operands; otherwise
materialize one entry-global per record and return `true`. -/
def createInitOrFiniGlobals (md5 : String → Nat) (cfg : Config) (m : IRModule)
    (ini : ArrayInit) (isCtor : Bool) : IRModule × Bool :=
  match ini with
  | .nonArray => (m, false)
  | .constantArray [] => (m, false)
  | .constantArray (r :: rs) => (createInitOrFiniGlobalsLoop md5 cfg isCtor m (r :: rs), true)

/-- `createInitOrFiniKernelFunction`: return `nullptr` (here `none`) when a
function of the reserved name already exists, else create it. -/
def createInitOrFiniKernelFunction (m : IRModule) (isCtor : Bool) : IRModule × Option String :=
  let nm := if isCtor then "nvptx$device$init" else "nvptx$device$fini"
  if nm ∈ m.functions then (m, none)
  else ({ m with functions := m.functions ++ [nm] }, some nm)

/-- Module-level effect of `createInitOrFiniCalls`: `M.getOrInsertGlobal`
of the two boundary symbols of the kind (the synthesized body itself is
modelled by `ctorCallSlots` / `dtorCallSlots` below). -/
def createInitOrFiniCalls (m : IRModule) (isCtor : Bool) : IRModule :=
  let sName := if isCtor then "__init_array_start" else "__fini_array_start"
  let eName := if isCtor then "__init_array_end" else "__fini_array_end"
  let b1 := if sName ∈ m.boundaryGlobals then m.boundaryGlobals else m.boundaryGlobals ++ [sName]
  let b2 := if eName ∈ b1 then b1 else b1 ++ [eName]
  { m with boundaryGlobals := b2 }

/-- `GV->eraseFromParent()` on the metadata array global of a kind. -/
def eraseArray (m : IRModule) (isCtor : Bool) : IRModule :=
  if isCtor then { m with globalCtors := none } else { m with globalDtors := none }

/-- `createInitOrFiniKernel`: look up the metadata global, materialize
entry-globals, then (only when `CreateKernels`) create the kernel
function, synthesize its body, and erase the metadata global. -/
def createInitOrFiniKernel (md5 : String → Nat) (cfg : Config) (m : IRModule) (isCtor : Bool) :
    IRModule × Bool :=
  match (if isCtor then m.globalCtors else m.globalDtors) with
  | none => (m, false)
  | some none => (m, false)
  | some (some ini) =>
    match createInitOrFiniGlobals md5 cfg m ini isCtor with
    | (m1, false) => (m1, false)
    | (m1, true) =>
      if cfg.createKernels then
        match createInitOrFiniKernelFunction m1 isCtor with
        | (m2, none) => (m2, false)
        | (m2, some _) => (eraseArray (createInitOrFiniCalls m2 isCtor) isCtor, true)
      else (m1, true)

/-- `lowerCtorsAndDtors`: process ctors then dtors; the module is reported
modified when either kind made a change. -/
def lowerCtorsAndDtors (md5 : String → Nat) (cfg : Config) (m : IRModule) : IRModule × Bool :=
  let r1 := createInitOrFiniKernel md5 cfg m true
  let r2 := createInitOrFiniKernel md5 cfg r1.1 false
  (r2.1, r1.2 || r2.2)

/-! ## Execution semantics of the synthesized kernel body

`createInitOrFiniCalls` emits a do-while loop guarded by an entry-block
comparison.  Pointers are 64-bit; slots are pointer-sized (8 bytes), so
every pointer advance is by 8 modulo 2^64 (written as the literal
18446744073709551616 throughout). -/

/-- Signed interpretation of a 64-bit value (`CreatePtrToInt` followed by
`CreateSub` works on `i64`; `CreateAShr` is an arithmetic shift). -/
def toSigned64 (x : Nat) : Int :=
  if x < 9223372036854775808 then (x : Int) else (x : Int) - 18446744073709551616

/-- Truncation of an integer to an unsigned 64-bit value. -/
def wrap64 (x : Int) : Nat := (x.emod 18446744073709551616).toNat

/-- GEP over 8-byte (pointer-typed) elements with a signed 64-bit index. -/
def gep8 (base : Nat) (idx : Int) : Nat := wrap64 ((base : Int) + 8 * idx)

/-- The ctor loop body: record the current slot (it is loaded and its
content indirectly called), advance by one slot, exit when the advanced
pointer equals the stop value (`ICMP_EQ`), else iterate.  Fuel bounds the
recursion; `none` means the fuel ran out before the loop exited. -/
def ctorLoop (stop : Nat) : Nat → Nat → Option (List Nat)
  | 0, _ => none
  | fuel + 1, ptr =>
    let next := (ptr + 8) % 18446744073709551616
    if next = stop then some [ptr]
    else Option.map (fun tail => ptr :: tail) (ctorLoop stop fuel next)

/-- Slots visited by the forward (ctor) entry point, given the loaded
`__init_array_start` / `__init_array_end` values: the loop is entered only
when they differ (`ICMP_NE`). -/
def ctorCallSlots (fuel beginv endv : Nat) : Option (List Nat) :=
  if beginv ≠ endv then ctorLoop endv fuel beginv else some []

/-- The dtor loop body: record the current slot, step back one slot,
exit when the stepped pointer is unsigned-below the stop value
(`ICMP_ULT`), else iterate. -/
def dtorLoop (stop : Nat) : Nat → Nat → Option (List Nat)
  | 0, _ => none
  | fuel + 1, ptr =>
    let next := gep8 ptr (-1)
    if next < stop then some [ptr]
    else Option.map (fun tail => ptr :: tail) (dtorLoop stop fuel next)

/-- Slots visited by the reverse (dtor) entry point, given the loaded
`__fini_array_start` / `__fini_array_end` values.  Mirrors the `!IsCtor`
block: `offset = (end - begin) ashr 3`, `valuePtr = begin + 8*offset`,
new begin `= valuePtr - 8`, new stop `=` the original begin, and the loop
is entered only when new begin is unsigned-above the stop (`ICMP_UGT`). -/
def dtorCallSlots (fuel beginv endv : Nat) : Option (List Nat) :=
  let sub := wrap64 ((endv : Int) - (beginv : Int))
  let offset := (toSigned64 sub).ediv 8
  let valuePtr := gep8 beginv offset
  let startPtr := gep8 valuePtr (-1)
  if startPtr > beginv then dtorLoop beginv fuel startPtr else some []

/-! ## Driver lemmas -/

/-- Closed form of the materializer loop: it only appends the entry-globals
and their `llvm.used` markers, in record order. -/
lemma globalsLoop_spec (md5 : String → Nat) (cfg : Config) (isCtor : Bool) :
    ∀ (rs : List CtorDtorRecord) (m : IRModule),
      createInitOrFiniGlobalsLoop md5 cfg isCtor m rs =
        { m with
          entryGlobals := m.entryGlobals
            ++ rs.map (mkEntryGlobal isCtor (globalIdFor md5 cfg m.sourceFileName))
          usedList := m.usedList
            ++ rs.map (fun r =>
              (mkEntryGlobal isCtor (globalIdFor md5 cfg m.sourceFileName) r).name) } := by
  intro rs
  induction rs with
  | nil => intro m; simp [createInitOrFiniGlobalsLoop]
  | cons r rs ih =>
    intro m
    rw [createInitOrFiniGlobalsLoop, ih]
    simp [List.append_assoc]

/-- Closed form of the forward loop on a well-formed slot run of `n`
elements: the visited slots are exactly the `n` slot addresses in
increasing order. -/
lemma ctorLoop_spec : ∀ (n b fuel : Nat), 1 ≤ n → n ≤ fuel →
    b + 8 * n < 18446744073709551616 →
    ctorLoop (b + 8 * n) fuel b = some ((List.range n).map (fun i => b + 8 * i)) := by
  intro n
  induction n with
  | zero => omega
  | succ k ih =>
    intro b fuel h1 hf hlt
    obtain ⟨f, rfl⟩ : ∃ f, fuel = f + 1 := ⟨fuel - 1, by omega⟩
    have hnext : (b + 8) % 18446744073709551616 = b + 8 := Nat.mod_eq_of_lt (by omega)
    by_cases hk : k = 0
    · subst hk
      have h18 : b + 8 * (0 + 1) = b + 8 := by ring
      rw [h18, ctorLoop]
      simp only [hnext, if_pos]
      have hr : List.range 1 = [0] := rfl
      simp [hr]
    · have hne : ¬ (b + 8 = b + 8 * (k + 1)) := by omega
      rw [ctorLoop]
      simp only [hnext, hne, if_false]
      have hstop : b + 8 * (k + 1) = (b + 8) + 8 * k := by ring
      rw [hstop, ih (b + 8) f (by omega) (by omega) (by omega)]
      have hrange : (List.range (k + 1)).map (fun i => b + 8 * i)
          = b :: (List.range k).map (fun i => (b + 8) + 8 * i) := by
        rw [List.range_succ_eq_map]
        simp only [List.map_cons, List.map_map, Nat.mul_zero, Nat.add_zero]
        refine congrArg (List.cons b) (List.map_congr_left ?_)
        intro i _
        simp [Function.comp, Nat.succ_eq_add_one]
        ring
      rw [hrange]
      rfl

/-- Sanity check of the embedded dtor semantics: a two-element run
`[64, 80)` visits slot 72 first and slot 64 last. -/
lemma dtor_two_slots_reverse : dtorCallSlots 2 64 80 = some [72, 64] := by decide

/-- Sanity check of the embedded ctor semantics: a two-element run
`[64, 80)` visits slot 64 first and slot 72 last. -/
lemma ctor_two_slots_forward : ctorCallSlots 2 64 80 = some [64, 72] := by decide

/-! ## Concrete instances used by counterexamples and witnesses -/

/-- A trivial stand-in for the black-box 128-bit hash. -/
def md5Zero : String → Nat := fun _ => 0

/-- Configuration with an explicit identifier and kernel emission on. -/
def cfgOn : Config := { globalStr := "id", createKernels := true }

/-- Configuration with an explicit identifier and kernel emission off. -/
def cfgOff : Config := { globalStr := "id", createKernels := false }

/-- A module with one valid ctor record and a pre-existing entry-point
function of the reserved ctor name. -/
def mAbort : IRModule :=
  { sourceFileName := "m.cu"
    globalCtors := some (some (.constantArray [{ priority := 1, fn := "A" }]))
    globalDtors := none
    functions := ["nvptx$device$init"]
    entryGlobals := []
    usedList := []
    boundaryGlobals := [] }

/-- A module with one valid ctor record and no pre-existing functions. -/
def mPlain : IRModule :=
  { sourceFileName := "m.cu"
    globalCtors := some (some (.constantArray [{ priority := 1, fn := "A" }]))
    globalDtors := none
    functions := []
    entryGlobals := []
    usedList := []
    boundaryGlobals := [] }

/-- A fully lowered module: both metadata arrays deleted. -/
def mLowered : IRModule :=
  { sourceFileName := "m.cu"
    globalCtors := none
    globalDtors := none
    functions := ["nvptx$device$init", "nvptx$device$fini"]
    entryGlobals := [mkEntryGlobal true "id" { priority := 1, fn := "A" }]
    usedList := [(mkEntryGlobal true "id" { priority := 1, fn := "A" }).name]
    boundaryGlobals := ["__init_array_start", "__init_array_end"] }

/-! ## The claims -/

/-- C1, as stated, is false: when the reserved entry-point name already
exists and the metadata array is valid and non-empty, processing of the
kind does abort with the array preserved, but entry-globals HAVE been
added by then — the module is not left exactly as found. -/
theorem c1_counterexample :
    (createInitOrFiniKernel md5Zero cfgOn mAbort true).2 = false
    ∧ (createInitOrFiniKernel md5Zero cfgOn mAbort true).1.globalCtors = mAbort.globalCtors
    ∧ (createInitOrFiniKernel md5Zero cfgOn mAbort true).1.entryGlobals ≠ mAbort.entryGlobals := by
  decide

/-- C1 (amended): when an entry-point function of the reserved name
already exists and the metadata array of the kind is valid and non-empty,
processing of that kind aborts without deleting the metadata array,
without creating any function or boundary symbol, and reports the kind
unmodified — but the entry-globals of all records (and their `llvm.used`
markers) have already been created before the abort. -/
theorem c1_abort_preserves_array_but_materializes
    (md5 : String → Nat) (cfg : Config) (m : IRModule) (isCtor : Bool)
    (r : CtorDtorRecord) (rs : List CtorDtorRecord)
    (hk : cfg.createKernels = true)
    (hgv : (if isCtor then m.globalCtors else m.globalDtors)
      = some (some (.constantArray (r :: rs))))
    (hfn : (if isCtor then "nvptx$device$init" else "nvptx$device$fini") ∈ m.functions) :
    (createInitOrFiniKernel md5 cfg m isCtor).2 = false
    ∧ (createInitOrFiniKernel md5 cfg m isCtor).1.globalCtors = m.globalCtors
    ∧ (createInitOrFiniKernel md5 cfg m isCtor).1.globalDtors = m.globalDtors
    ∧ (createInitOrFiniKernel md5 cfg m isCtor).1.functions = m.functions
    ∧ (createInitOrFiniKernel md5 cfg m isCtor).1.boundaryGlobals = m.boundaryGlobals
    ∧ (createInitOrFiniKernel md5 cfg m isCtor).1.entryGlobals = m.entryGlobals
        ++ (r :: rs).map (mkEntryGlobal isCtor (globalIdFor md5 cfg m.sourceFileName))
    ∧ (createInitOrFiniKernel md5 cfg m isCtor).1.usedList = m.usedList
        ++ (r :: rs).map (fun q =>
          (mkEntryGlobal isCtor (globalIdFor md5 cfg m.sourceFileName) q).name) := by
  have hloop := globalsLoop_spec md5 cfg isCtor (r :: rs) m
  simp [createInitOrFiniKernel, hgv, createInitOrFiniGlobals, hk,
    createInitOrFiniKernelFunction, hfn, hloop]

/-- Witness for C1 (amended) at a concrete module. -/
theorem c1_witness :
    (createInitOrFiniKernel md5Zero cfgOn mAbort true).2 = false
    ∧ (createInitOrFiniKernel md5Zero cfgOn mAbort true).1.globalCtors = mAbort.globalCtors
    ∧ (createInitOrFiniKernel md5Zero cfgOn mAbort true).1.globalDtors = mAbort.globalDtors
    ∧ (createInitOrFiniKernel md5Zero cfgOn mAbort true).1.functions = mAbort.functions
    ∧ (createInitOrFiniKernel md5Zero cfgOn mAbort true).1.boundaryGlobals
        = mAbort.boundaryGlobals
    ∧ (createInitOrFiniKernel md5Zero cfgOn mAbort true).1.entryGlobals = mAbort.entryGlobals
        ++ [{ priority := 1, fn := "A" }].map
          (mkEntryGlobal true (globalIdFor md5Zero cfgOn mAbort.sourceFileName))
    ∧ (createInitOrFiniKernel md5Zero cfgOn mAbort true).1.usedList = mAbort.usedList
        ++ [{ priority := 1, fn := "A" }].map (fun q =>
          (mkEntryGlobal true (globalIdFor md5Zero cfgOn mAbort.sourceFileName) q).name) :=
  c1_abort_preserves_array_but_materializes md5Zero cfgOn mAbort true
    { priority := 1, fn := "A" } [] (by decide) (by decide) (by decide)

/-- C2, as stated, is false: with the kernel-emission toggle off the pass
creates the entry-globals and no entry-point function, but it does NOT
delete the original metadata array global — it returns before the erase. -/
theorem c2_counterexample :
    (createInitOrFiniKernel md5Zero cfgOff mPlain true).2 = true
    ∧ (createInitOrFiniKernel md5Zero cfgOff mPlain true).1.entryGlobals.length = 1
    ∧ (createInitOrFiniKernel md5Zero cfgOff mPlain true).1.functions = []
    ∧ (createInitOrFiniKernel md5Zero cfgOff mPlain true).1.globalCtors ≠ none := by
  decide

/-- C2 (amended): with a valid non-empty metadata array of a kind and the
kernel-emission toggle off, the pass creates one entry-global per record
and no entry-point function, reports the kind modified, but leaves the
original metadata array global in place (it is not deleted). -/
theorem c2_kernels_off_materializes_without_erase
    (md5 : String → Nat) (cfg : Config) (m : IRModule) (isCtor : Bool)
    (r : CtorDtorRecord) (rs : List CtorDtorRecord)
    (hk : cfg.createKernels = false)
    (hgv : (if isCtor then m.globalCtors else m.globalDtors)
      = some (some (.constantArray (r :: rs)))) :
    (createInitOrFiniKernel md5 cfg m isCtor).2 = true
    ∧ (createInitOrFiniKernel md5 cfg m isCtor).1.globalCtors = m.globalCtors
    ∧ (createInitOrFiniKernel md5 cfg m isCtor).1.globalDtors = m.globalDtors
    ∧ (createInitOrFiniKernel md5 cfg m isCtor).1.functions = m.functions
    ∧ (createInitOrFiniKernel md5 cfg m isCtor).1.boundaryGlobals = m.boundaryGlobals
    ∧ (createInitOrFiniKernel md5 cfg m isCtor).1.entryGlobals = m.entryGlobals
        ++ (r :: rs).map (mkEntryGlobal isCtor (globalIdFor md5 cfg m.sourceFileName)) := by
  have hloop := globalsLoop_spec md5 cfg isCtor (r :: rs) m
  simp [createInitOrFiniKernel, hgv, createInitOrFiniGlobals, hk, hloop]

/-- Witness for C2 (amended) at a concrete module. -/
theorem c2_witness :
    (createInitOrFiniKernel md5Zero cfgOff mPlain true).2 = true
    ∧ (createInitOrFiniKernel md5Zero cfgOff mPlain true).1.globalCtors = mPlain.globalCtors
    ∧ (createInitOrFiniKernel md5Zero cfgOff mPlain true).1.globalDtors = mPlain.globalDtors
    ∧ (createInitOrFiniKernel md5Zero cfgOff mPlain true).1.functions = mPlain.functions
    ∧ (createInitOrFiniKernel md5Zero cfgOff mPlain true).1.boundaryGlobals
        = mPlain.boundaryGlobals
    ∧ (createInitOrFiniKernel md5Zero cfgOff mPlain true).1.entryGlobals = mPlain.entryGlobals
        ++ [{ priority := 1, fn := "A" }].map
          (mkEntryGlobal true (globalIdFor md5Zero cfgOff mPlain.sourceFileName)) :=
  c2_kernels_off_materializes_without_erase md5Zero cfgOff mPlain true
    { priority := 1, fn := "A" } [] (by decide) (by decide)

/-- C3: on a valid run of `n` 8-byte slots starting at `b` (no address
wraparound), the synthesized forward entry point visits exactly the slots
`b, b+8, …, b+8*(n-1)` in increasing order — each exactly once — and never
loads or calls through a slot at or past the loaded end value; for `n = 0`
(start equals end) the loop body is never entered. -/
theorem c3_ctor_forward_exact_once_in_order (b n fuel : Nat)
    (hwrap : b + 8 * n < 18446744073709551616) (hfuel : n ≤ fuel) :
    ctorCallSlots fuel b (b + 8 * n) = some ((List.range n).map (fun i => b + 8 * i))
    ∧ ∀ a ∈ (List.range n).map (fun i => b + 8 * i), a < b + 8 * n := by
  constructor
  · by_cases hn : n = 0
    · subst hn
      simp [ctorCallSlots]
    · have hne : b ≠ b + 8 * n := by omega
      simp only [ctorCallSlots, hne, ne_eq, not_false_eq_true, if_true]
      exact ctorLoop_spec n b fuel (by omega) hfuel hwrap
  · intro a ha
    simp only [List.mem_map, List.mem_range] at ha
    obtain ⟨i, hi, rfl⟩ := ha
    omega

/-- Witness for C3 on a two-slot run `[16, 32)`. -/
theorem c3_witness :
    ctorCallSlots 2 16 (16 + 8 * 2) = some ((List.range 2).map (fun i => 16 + 8 * i))
    ∧ ∀ a ∈ (List.range 2).map (fun i => 16 + 8 * i), a < 16 + 8 * 2 :=
  c3_ctor_forward_exact_once_in_order 16 2 2 (by decide) (by decide)

/-- C4: the code contradicts its own reference comment
(`for (size_t i = fini_array_size; i > 0; --i) ...`) on a single-element
destructor array.  With `__fini_array_start = 64` and
`__fini_array_end = 72`, the element count `(end - start) ashr 3` is 1 as
the claim states, but the entry guard `ICMP_UGT` compares
`start + 8*(count-1) = 64` against the original start 64 and fails, so the
loop is skipped and the sole destructor is never invoked. -/
theorem c4_single_dtor_skipped :
    (toSigned64 (wrap64 ((72 : Int) - (64 : Int)))).ediv 8 = 1
    ∧ dtorCallSlots 1 64 72 = some [] := by
  decide

/-- C5: when the metadata array global of a kind is absent, has no
constant value, is not a constant array, or is a zero-element array, the
pass makes no change at all for that kind and reports it unmodified. -/
theorem c5_malformed_array_noop (md5 : String → Nat) (cfg : Config) (m : IRModule)
    (isCtor : Bool)
    (h : (if isCtor then m.globalCtors else m.globalDtors) = none
       ∨ (if isCtor then m.globalCtors else m.globalDtors) = some none
       ∨ (if isCtor then m.globalCtors else m.globalDtors) = some (some .nonArray)
       ∨ (if isCtor then m.globalCtors else m.globalDtors) = some (some (.constantArray []))) :
    createInitOrFiniKernel md5 cfg m isCtor = (m, false) := by
  rcases h with h | h | h | h <;>
    simp [createInitOrFiniKernel, h, createInitOrFiniGlobals]

/-- Witness for C5 at a module whose dtor array global is absent. -/
theorem c5_witness : createInitOrFiniKernel md5Zero cfgOn mPlain false = (mPlain, false) :=
  c5_malformed_array_noop md5Zero cfgOn mPlain false (Or.inl (by decide))

/-- C6: on a module that a previous run fully lowered — in particular both
metadata arrays are deleted — a second run of the pass changes nothing and
reports the module unmodified. -/
theorem c6_second_run_idempotent (md5 : String → Nat) (cfg : Config) (m : IRModule)
    (hc : m.globalCtors = none) (hd : m.globalDtors = none) :
    lowerCtorsAndDtors md5 cfg m = (m, false) := by
  simp [lowerCtorsAndDtors, createInitOrFiniKernel, hc, hd]

/-- Witness for C6 at a concrete fully lowered module. -/
theorem c6_witness : lowerCtorsAndDtors md5Zero cfgOn mLowered = (mLowered, false) :=
  c6_second_run_idempotent md5Zero cfgOn mLowered rfl rfl

/-- C7, as stated, is false: the namer substitutes '.' with '_' after
concatenation, so the distinct pairs ("a.b", 0) and ("a_b", 0) — two
different functions sharing a priority — produce the same entry-global
name. -/
theorem c7_collision_counterexample :
    entryGlobalName true "a.b" "g" (priorityU64 0)
      = entryGlobalName true "a_b" "g" (priorityU64 0)
    ∧ ("a.b", (0 : Int)) ≠ ("a_b", (0 : Int)) := by
  constructor
  · rfl
  · decide

/-- C7 (amended): within one module (hence one identifier string), two
records of the same kind whose `int64` priorities differ, or whose
function names differ after the '.' → '_' substitution, always receive
distinct entry-global names; a collision is possible only for equal
priorities with function names that agree after that substitution. -/
theorem c7_distinct_names (isCtor : Bool) (fn1 fn2 gid : String) (p1 p2 : Int)
    (hr1 : -9223372036854775808 ≤ p1) (hr2 : p1 < 9223372036854775808)
    (hr3 : -9223372036854775808 ≤ p2) (hr4 : p2 < 9223372036854775808)
    (hdiff : mapDots fn1 ≠ mapDots fn2 ∨ p1 ≠ p2) :
    entryGlobalName isCtor fn1 gid (priorityU64 p1)
      ≠ entryGlobalName isCtor fn2 gid (priorityU64 p2) := by
  intro heq
  obtain ⟨hf, hu⟩ := names_eq_then isCtor fn1 fn2 gid _ _ heq
  rcases hdiff with h | h
  · exact h hf
  · exact h (priorityU64_inj p1 p2 hr1 hr2 hr3 hr4 hu)

/-- Witness for C7 (amended): different substituted names, same priority. -/
theorem c7_witness :
    entryGlobalName true "a" "g" (priorityU64 0)
      ≠ entryGlobalName true "b" "g" (priorityU64 0) :=
  c7_distinct_names true "a" "b" "g" 0 0 (by decide) (by decide) (by decide) (by decide)
    (Or.inl (by decide))

/-- C8 (spec-modelled): the digest is deterministic (a function of the
128-bit hash of the input), its output has the fixed length 16, consists
only of lowercase hexadecimal digit characters, and decodes to exactly
the low 64 bits of the 128-bit hash. -/
theorem c8_getHash_low64_fixed_hex (md5 : String → Nat) (s : String) :
    (getHash md5 s).length = 16
    ∧ (∀ c ∈ (getHash md5 s).data, c ∈ ("0123456789abcdef").data)
    ∧ hexValue (getHash md5 s).data = md5 s % 18446744073709551616 := by
  refine ⟨?_, ?_, ?_⟩
  · show (hexDigitsFixed 16 (md5 s % 18446744073709551616)).length = 16
    exact hexDigitsFixed_length 16 _
  · show ∀ c ∈ hexDigitsFixed 16 (md5 s % 18446744073709551616), _
    exact hexDigitsFixed_chars 16 _
  · show hexValue (hexDigitsFixed 16 (md5 s % 18446744073709551616)) = _
    rw [hexValue_hexDigitsFixed]
    have h16 : (16 : Nat) ^ 16 = 18446744073709551616 := by norm_num
    rw [h16, Nat.mod_mod_of_dvd _ dvd_rfl]

/-- C9: the boundary symbols of a kind can only appear along the
kernel-emission path — if the pass changed the boundary-global set for a
kind, then kernel emission was enabled, the kind's metadata array was a
valid non-empty constant array, and no function of the reserved
entry-point name pre-existed. -/
theorem c9_boundary_only_on_kernel_path (md5 : String → Nat) (cfg : Config) (m : IRModule)
    (isCtor : Bool)
    (hch : (createInitOrFiniKernel md5 cfg m isCtor).1.boundaryGlobals ≠ m.boundaryGlobals) :
    cfg.createKernels = true
    ∧ (∃ r rs, (if isCtor then m.globalCtors else m.globalDtors)
        = some (some (.constantArray (r :: rs))))
    ∧ (if isCtor then "nvptx$device$init" else "nvptx$device$fini") ∉ m.functions := by
  rcases hgv : (if isCtor then m.globalCtors else m.globalDtors) with _ | oi
  · exact absurd (by simp [createInitOrFiniKernel, hgv]) hch
  rcases oi with _ | ini
  · exact absurd (by simp [createInitOrFiniKernel, hgv]) hch
  rcases ini with rs | _
  swap
  · exact absurd (by simp [createInitOrFiniKernel, hgv, createInitOrFiniGlobals]) hch
  rcases rs with _ | ⟨r, rs⟩
  · exact absurd (by simp [createInitOrFiniKernel, hgv, createInitOrFiniGlobals]) hch
  have hloop := globalsLoop_spec md5 cfg isCtor (r :: rs) m
  by_cases hk : cfg.createKernels
  swap
  · exact absurd (by simp [createInitOrFiniKernel, hgv, createInitOrFiniGlobals,
      hk, hloop]) hch
  by_cases hfn : (if isCtor then "nvptx$device$init" else "nvptx$device$fini") ∈ m.functions
  · exact absurd (by simp [createInitOrFiniKernel, hgv, createInitOrFiniGlobals,
      hk, hloop, createInitOrFiniKernelFunction, hfn]) hch
  · exact ⟨hk, ⟨r, rs, rfl⟩, hfn⟩

/-- Witness for C9 at a concrete module whose boundary globals change. -/
theorem c9_witness :
    cfgOn.createKernels = true
    ∧ (∃ r rs, (if true then mPlain.globalCtors else mPlain.globalDtors)
        = some (some (.constantArray (r :: rs))))
    ∧ (if true then "nvptx$device$init" else "nvptx$device$fini") ∉ mPlain.functions :=
  c9_boundary_only_on_kernel_path md5Zero cfgOn mPlain true (by decide)

/-- C10: a negative record priority is reinterpreted as the unsigned
64-bit value `p + 2^64` and rendered in decimal without a minus sign; this
rendering is the priority component of both the entry-global name and the
`.init_array.<priority>` / `.fini_array.<priority>` section string. -/
theorem c10_negative_priority_unsigned_render (p : Int) (isCtor : Bool) (fn gid : String)
    (h1 : -9223372036854775808 ≤ p) (h2 : p < 0) :
    priorityU64 p = (p + 18446744073709551616).toNat
    ∧ (∀ c ∈ decDigits (priorityU64 p), c ≠ '-')
    ∧ sectionFor isCtor (priorityU64 p)
        = (if isCtor then ".init_array" else ".fini_array")
          ++ ("." ++ decimalStr (priorityU64 p))
    ∧ (entryGlobalName isCtor fn gid (priorityU64 p)).data
        = ((if isCtor then "__init_array_object_" else "__fini_array_object_").data
            ++ fn.data.map dotToUnderscore
            ++ '_' :: gid.data.map dotToUnderscore)
          ++ '_' :: decDigits (priorityU64 p) := by
  refine ⟨?_, ?_, rfl, entryGlobalName_data isCtor fn gid (priorityU64 p)⟩
  · unfold priorityU64
    rw [emod64_char p h1 (by omega)]
    simp [show ¬ (0 ≤ p) from by omega]
  · intro c hc
    exact (decDigits_no_special (priorityU64 p) c hc).2.2

/-- Witness for C10 at priority -1: the rendered value is 2^64 - 1. -/
theorem c10_witness :
    (priorityU64 (-1) = ((-1 : Int) + 18446744073709551616).toNat
      ∧ (∀ c ∈ decDigits (priorityU64 (-1)), c ≠ '-')
      ∧ sectionFor true (priorityU64 (-1))
          = (if true then ".init_array" else ".fini_array")
            ++ ("." ++ decimalStr (priorityU64 (-1)))
      ∧ (entryGlobalName true "f" "g" (priorityU64 (-1))).data
          = ((if true then "__init_array_object_" else "__fini_array_object_").data
              ++ ("f" : String).data.map dotToUnderscore
              ++ '_' :: ("g" : String).data.map dotToUnderscore)
            ++ '_' :: decDigits (priorityU64 (-1)))
    ∧ decimalStr (priorityU64 (-1)) = "18446744073709551615" :=
  ⟨c10_negative_priority_unsigned_render (-1) true "f" "g" (by decide) (by decide), by decide⟩

end NVPTXCtorDtor
